import Mathlib

/-!
# A model of `src/pipe.c`

Shallow embedding of the pipe data structure (a thread-safe circular FIFO
buffer) from `src/pipe.c`, release build (`NDEBUG`: asserts elided, so
`DEFAULT_MINCAP = 32`).

Modelling conventions:

* Pointers into the buffer are byte offsets: `buffer` is a `List Nat` of
  bytes, `begin`/`end_` are offsets in `[0, elem_size * capacity]`, and the
  derived `bufend` pointer (maintained by `fix_bufend`) is the offset
  `elem_size * capacity`, written `bufLen`.
* `size_t` values are `Nat`. The only place where the 64-bit width of
  `size_t` is observable is the loop of `next_pow2` (`i <<= 1` wraps to `0`
  after `2^63`), modelled by giving the loop 64 steps of fuel.
* Every lifecycle operation that may call
  `pthread_cond_broadcast(&has_new_elems)` returns a `Bool` recording
  whether the source code contains such a call on that path: `pipe_push`
  broadcasts unconditionally after unlocking, while `pipe_free`,
  `pipe_producer_free` and `pipe_consumer_free` contain no broadcast call.
* The blocking wait loops of `pipe_pop` (`pthread_cond_wait`) cannot be a
  pure function; their guards are modelled as explicit boolean predicates
  (`pop_guard`), and the pop functions model the body executed once the
  wait loop has exited.
* `malloc` of the pipe structure in `pipe_new` is modelled by a `malloc_ok`
  flag (the source returns `NULL` exactly when that allocation fails); the
  buffer allocations are modelled as succeeding, with fresh bytes read as 0.
-/

/-- `DEFAULT_MINCAP` of the release build (no `DEBUG`): 32. -/
def DEFAULT_MINCAP : Nat := 32

/-- `DEFAULT_MINCAP` of a debug build (`DEBUG` defined): 2. -/
def DEFAULT_MINCAP_DEBUG : Nat := 2

/-- The pipe state, `struct pipe` of `src/pipe.c` with pointers as byte
offsets.  The `bufend` field is derived (`fix_bufend` keeps it equal to
`buffer + elem_size * capacity`) and is therefore represented by the
function `bufLen` rather than a field.  The mutex and condition variable
carry no data. -/
structure Pipe where
  elem_size : Nat
  elem_count : Nat
  capacity : Nat
  min_cap : Nat
  buffer : List Nat
  begin : Nat
  end_ : Nat
  producer_refcount : Nat
  consumer_refcount : Nat
deriving DecidableEq, Repr

/-- The `bufend` offset: `buffer + elem_size * capacity` (see `fix_bufend`). -/
def bufLen (p : Pipe) : Nat := p.elem_size * p.capacity

/-- `wraps_around`: does the buffer wrap (`begin > end`)? -/
def wraps_around (p : Pipe) : Bool := decide (p.begin > p.end_)

/-- `in_bounds(left, p, right)`: is the offset within `[left, right]`? -/
def in_bounds (left q right : Nat) : Bool := decide (left ≤ q) && decide (q ≤ right)

/-- `wrap_if_at_end(p, begin, end)`: wrap the offset to `bgn` if it has hit `ed`. -/
def wrap_if_at_end (ptr bgn ed : Nat) : Nat := if ptr = ed then bgn else ptr

/-- The loop of `next_pow2`: `for(i = 1; i != 0; i <<= 1) if(n <= i) return i;`.
On a 64-bit `size_t` the counter takes the values `2^0 .. 2^63` and then
wraps to `0`, ending the loop after 64 iterations, whereupon `n` itself is
returned. -/
def next_pow2_loop : Nat → Nat → Nat → Nat
  | 0, _, n => n
  | fuel + 1, i, n => if n ≤ i then i else next_pow2_loop fuel (i * 2) n

/-- `next_pow2(n)` from `src/pipe.c`. -/
def next_pow2 (n : Nat) : Nat := next_pow2_loop 64 1 n

/-- `check_invariants` of `src/pipe.c` as a boolean: the conjunction of the
assertions it performs on a pipe whose buffer is live (the `bufend`
assertion becomes the statement that `buffer` holds `elem_size * capacity`
bytes). -/
def check_invariants (p : Pipe) : Bool :=
  decide (p.elem_size ≠ 0) &&
  decide (p.min_cap ≤ p.capacity) &&
  decide (p.elem_count ≤ p.capacity) &&
  decide (p.buffer.length = bufLen p) &&
  in_bounds 0 p.begin (bufLen p) &&
  in_bounds 0 p.end_ (bufLen p) &&
  decide (p.begin ≠ bufLen p) &&
  (if wraps_around p
    then decide (p.elem_size * p.elem_count = (bufLen p - p.begin) + p.end_)
    else decide (p.elem_size * p.elem_count = p.end_ - p.begin))

/-- The invariants hold. -/
def inv (p : Pipe) : Prop := check_invariants p = true

instance (p : Pipe) : Decidable (inv p) := by unfold inv; infer_instance

/-- The bytes `copy_pipe_into_new_buf` copies: the run `[begin, bufend)`
followed by `[buffer, end)` in the wrap configuration, the run
`[begin, end)` otherwise.  This is the logical FIFO content of the pipe. -/
def logical_bytes (p : Pipe) : List Nat :=
  if wraps_around p then
    p.buffer.drop p.begin ++ p.buffer.take p.end_
  else
    (p.buffer.drop p.begin).take (p.end_ - p.begin)

/-- A `memcpy(buffer + off, data, data.length)` on the byte-list buffer. -/
def memcpy_at (buf : List Nat) (off : Nat) (data : List Nat) : List Nat :=
  buf.take off ++ data ++ buf.drop (off + data.length)

/-- `resize_buffer(p, new_size)`: refuse when `new_size <= elem_count` or
`new_size < min_cap`; otherwise allocate `new_size * elem_size` bytes, copy
the logical contents to offset 0 (`copy_pipe_into_new_buf`, which also
yields the new `end`), and reset `begin` to the buffer start.  Bytes past
`end` in the new buffer are uninitialised in C and read as 0 here. -/
def resize_buffer (p : Pipe) (new_size : Nat) : Pipe :=
  if new_size ≤ p.elem_count ∨ new_size < p.min_cap then p
  else
    let copied := logical_bytes p
    { p with
      buffer := copied ++ List.replicate (new_size * p.elem_size - copied.length) 0,
      begin := 0,
      end_ := copied.length,
      capacity := new_size }

/-- The copy phase of `push_without_locking` (lines 376-407): in the nowrap
configuration first copy `min(bytes_to_copy, bufend - end)` bytes at `end`
and wrap; then (in either configuration) copy the remaining bytes at the
(possibly wrapped) end, wrap again, and bump `elem_count`. -/
def push_copy_step (p : Pipe) (elems : List Nat) (count : Nat) : Pipe :=
  let bytes_to_copy := count * p.elem_size
  if wraps_around p then
    { p with
      buffer := memcpy_at p.buffer p.end_ (elems.take bytes_to_copy),
      end_ := wrap_if_at_end (p.end_ + bytes_to_copy) 0 (bufLen p),
      elem_count := p.elem_count + count }
  else
    let at_end := min bytes_to_copy (bufLen p - p.end_)
    let buf1 := memcpy_at p.buffer p.end_ (elems.take at_end)
    let newend := wrap_if_at_end (p.end_ + at_end) 0 (bufLen p)
    let buf2 := memcpy_at buf1 newend ((elems.drop at_end).take (bytes_to_copy - at_end))
    { p with
      buffer := buf2,
      end_ := wrap_if_at_end (newend + (bytes_to_copy - at_end)) 0 (bufLen p),
      elem_count := p.elem_count + count }

/-- `push_without_locking`: grow to `next_pow2(elem_count + count)` when the
new elements do not fit, then run the copy phase. -/
def push_without_locking (p : Pipe) (elems : List Nat) (count : Nat) : Pipe :=
  push_copy_step
    (if p.elem_count + count > p.capacity
      then resize_buffer p (next_pow2 (p.elem_count + count))
      else p)
    elems count

/-- `pipe_push`: the locked `push_without_locking` followed by an
unconditional `pthread_cond_broadcast(&has_new_elems)` (the `Bool`). -/
def pipe_push (p : Pipe) (elems : List Nat) (count : Nat) : Pipe × Bool :=
  (push_without_locking p elems count, true)

/-- The removal phase of `pop_without_locking` (lines 430-458): remove
`min(count, elem_count)` elements, copying first from `[begin, bufend)` and
then, when the data wraps, from the buffer start, advancing `begin` with
wrapping after each copy.  Returns (new state, bytes copied out, elements
removed). -/
def pop_elements (p : Pipe) (count : Nat) : Pipe × List Nat × Nat :=
  let elems_to_copy := min count p.elem_count
  let bytes_remaining := elems_to_copy * p.elem_size
  let first_bytes := min bytes_remaining (bufLen p - p.begin)
  let target1 := (p.buffer.drop p.begin).take first_bytes
  let begin1 := wrap_if_at_end (p.begin + first_bytes) 0 (bufLen p)
  let bytes2 := bytes_remaining - first_bytes
  let target2 := if 0 < bytes2 then p.buffer.take bytes2 else []
  let begin2 := if 0 < bytes2 then wrap_if_at_end (begin1 + bytes2) 0 (bufLen p) else begin1
  ({ p with elem_count := p.elem_count - elems_to_copy, begin := begin2 },
   target1 ++ target2, elems_to_copy)

/-- The shrink policy at the end of `pop_without_locking` (lines 468-469):
when occupancy has dropped to a quarter, ask `resize_buffer` to halve. -/
def shrink_step (p : Pipe) : Pipe :=
  if p.elem_count ≤ p.capacity / 4 then resize_buffer p (p.capacity / 2) else p

/-- `pop_without_locking`: the removal phase followed by the shrink check. -/
def pop_without_locking (p : Pipe) (count : Nat) : Pipe × List Nat × Nat :=
  let r := pop_elements p count
  (shrink_step r.1, r.2.1, r.2.2)

/-- The guard of `pipe_pop`'s wait loop:
`elem_count < count && producer_refcount > 0`. -/
def pop_guard (p : Pipe) (count : Nat) : Bool :=
  decide (p.elem_count < count) && decide (0 < p.producer_refcount)

/-- `pipe_pop`, body after the wait loop has exited:
`elem_count > 0 ? pop_without_locking(p, target, count) : 0`. -/
def pipe_pop (p : Pipe) (count : Nat) : Pipe × List Nat × Nat :=
  if 0 < p.elem_count then pop_without_locking p count else (p, [], 0)

/-- `pipe_reserve(p, count)`: `count == 0` is replaced by `DEFAULT_MINCAP`;
then, when `count > elem_count`, set `min_cap = count` and call
`resize_buffer(p, count)`. -/
def pipe_reserve (p : Pipe) (count0 : Nat) : Pipe :=
  let count := if count0 = 0 then DEFAULT_MINCAP else count0
  if p.elem_count < count
    then resize_buffer { p with min_cap := count } count
    else p

/-- `pipe_new(elem_size)`, release build: `malloc_ok` tells whether the
`malloc(sizeof(pipe_t))` succeeds (the only condition under which the
source returns `NULL`).  The `assert(elem_size != 0)` is elided by
`NDEBUG`, so the state is built for any `elem_size`. -/
def pipe_new (malloc_ok : Bool) (elem_size : Nat) : Option Pipe :=
  if malloc_ok then
    some { elem_size := elem_size
           elem_count := 0
           capacity := DEFAULT_MINCAP
           min_cap := DEFAULT_MINCAP
           buffer := List.replicate (elem_size * DEFAULT_MINCAP) 0
           begin := 0
           end_ := 0
           producer_refcount := 1
           consumer_refcount := 1 }
  else none

/-- `pipe_producer_new`: increment `producer_refcount` under the lock. -/
def pipe_producer_new (p : Pipe) : Pipe :=
  { p with producer_refcount := p.producer_refcount + 1 }

/-- `pipe_consumer_new`: increment `consumer_refcount` under the lock. -/
def pipe_consumer_new (p : Pipe) : Pipe :=
  { p with consumer_refcount := p.consumer_refcount + 1 }

/-- `requires_deallocation`: both reference counts are zero. -/
def requires_deallocation (p : Pipe) : Bool :=
  decide (p.producer_refcount = 0) && decide (p.consumer_refcount = 0)

/-- `pipe_free`: decrement both counts, deallocate (`none`) when both hit
zero.  The `Bool` records whether the call broadcasts `has_new_elems`: the
source function contains no broadcast call, so it is `false`. -/
def pipe_free (p : Pipe) : Option Pipe × Bool :=
  let q := { p with
             producer_refcount := p.producer_refcount - 1,
             consumer_refcount := p.consumer_refcount - 1 }
  (if requires_deallocation q then none else some q, false)

/-- `pipe_producer_free`: decrement the producer count, deallocate when both
counts are zero.  No broadcast call is present in the source (`Bool`). -/
def pipe_producer_free (p : Pipe) : Option Pipe × Bool :=
  let q := { p with producer_refcount := p.producer_refcount - 1 }
  (if requires_deallocation q then none else some q, false)

/-- `pipe_consumer_free`: decrement the consumer count, deallocate when both
counts are zero.  No broadcast call is present in the source (`Bool`). -/
def pipe_consumer_free (p : Pipe) : Option Pipe × Bool :=
  let q := { p with consumer_refcount := p.consumer_refcount - 1 }
  (if requires_deallocation q then none else some q, false)

/-- Modelled from the spec: the guard of `pipe_pop_eager`'s wait loop.
`pipe_pop_eager` is called from `src/pipe_test.c` (line 46) but neither
`pipe.h` nor an implementation of it is present under `src/`; spec section
4.6 replaces the wait condition of `pop` with
`elem_count == 0 and producer_refcount > 0`. -/
def pop_eager_guard (p : Pipe) : Bool :=
  decide (p.elem_count = 0) && decide (0 < p.producer_refcount)

/-- Modelled from the spec: `pipe_pop_eager`, body after the wait loop has
exited.  Spec section 4.6: "like `pop`", so the body is that of `pipe_pop`,
returning `min(count, elem_count)` elements; only the wait-loop guard
(`pop_eager_guard`) differs. -/
def pipe_pop_eager (p : Pipe) (count : Nat) : Pipe × List Nat × Nat :=
  if 0 < p.elem_count then pop_without_locking p count else (p, [], 0)

example : next_pow2 5 = 8 := by decide
example : next_pow2 32 = 32 := by decide
example : next_pow2 0 = 1 := by decide

/-! ## Helper lemmas -/

lemma next_pow2_loop_ge (fuel : Nat) : ∀ i n, n ≤ next_pow2_loop fuel i n := by
  induction fuel with
  | zero => intro i n; exact Nat.le_refl n
  | succ f ih =>
      intro i n
      unfold next_pow2_loop
      split
      · omega
      · exact ih (i * 2) n

lemma next_pow2_ge (n : Nat) : n ≤ next_pow2 n := next_pow2_loop_ge 64 1 n

lemma push_copy_step_capacity (p : Pipe) (elems : List Nat) (count : Nat) :
    (push_copy_step p elems count).capacity = p.capacity := by
  unfold push_copy_step
  split <;> rfl

lemma push_copy_step_min_cap (p : Pipe) (elems : List Nat) (count : Nat) :
    (push_copy_step p elems count).min_cap = p.min_cap := by
  unfold push_copy_step
  split <;> rfl

lemma resize_buffer_capacity (p : Pipe) (ns : Nat) :
    (resize_buffer p ns).capacity =
      if ns ≤ p.elem_count ∨ ns < p.min_cap then p.capacity else ns := by
  unfold resize_buffer
  split <;> rfl

lemma resize_buffer_elem_count (p : Pipe) (ns : Nat) :
    (resize_buffer p ns).elem_count = p.elem_count := by
  unfold resize_buffer
  split <;> rfl

lemma resize_buffer_min_cap (p : Pipe) (ns : Nat) :
    (resize_buffer p ns).min_cap = p.min_cap := by
  unfold resize_buffer
  split <;> rfl

lemma inv_iff (p : Pipe) :
    inv p ↔ p.elem_size ≠ 0 ∧ p.min_cap ≤ p.capacity ∧ p.elem_count ≤ p.capacity ∧
      p.buffer.length = bufLen p ∧ p.begin ≤ bufLen p ∧ p.end_ ≤ bufLen p ∧
      p.begin ≠ bufLen p ∧
      (p.end_ < p.begin → p.elem_size * p.elem_count = (bufLen p - p.begin) + p.end_) ∧
      (p.begin ≤ p.end_ → p.elem_size * p.elem_count = p.end_ - p.begin) := by
  unfold inv check_invariants in_bounds wraps_around
  by_cases hw : p.end_ < p.begin
  · simp [hw, hw.not_le]
    tauto
  · simp [hw, Nat.not_lt.mp hw]
    tauto

/-- A freshly constructed release-build pipe with `elem_size = 1`: the value
of `pipe_new(1)` when allocation succeeds. -/
def freshPipe1 : Pipe :=
  ⟨1, 0, 32, 32, List.replicate 32 0, 0, 0, 1, 1⟩

/-- A pipe state with one producer handle and two consumer handles (fresh
pipe after `pipe_consumer_new`). -/
def oneProdTwoCons : Pipe :=
  ⟨1, 0, 32, 32, List.replicate 32 0, 0, 0, 1, 2⟩

example : pipe_consumer_new freshPipe1 = oneProdTwoCons := by decide

/-! ## Claims -/

/-- C1: the claim says that when `pipe_producer_free` (or `pipe_free`) makes
`producer_refcount` reach zero while `consumer_refcount` stays positive,
`has_new_elems` is broadcast.  The source code of both functions contains
no `pthread_cond_broadcast` call at all: evaluated on a state with one
producer and two consumers, `pipe_producer_free` drops the producer count
to zero, leaves the consumers alive, and broadcasts nothing (the `Bool`
component is `false`); likewise `pipe_free` on that state. -/
theorem c1_producer_free_never_broadcasts :
    (pipe_producer_free oneProdTwoCons).2 = false ∧
    (pipe_producer_free oneProdTwoCons).1 =
      some ⟨1, 0, 32, 32, List.replicate 32 0, 0, 0, 0, 2⟩ ∧
    (pipe_free oneProdTwoCons).2 = false ∧
    (pipe_free oneProdTwoCons).1 =
      some ⟨1, 0, 32, 32, List.replicate 32 0, 0, 0, 0, 1⟩ ∧
    (pipe_push oneProdTwoCons [] 0).2 = true := by
  decide

/-- C2 counterexample: on a fresh pipe (`elem_count = 0`, `capacity =
min_cap = DEFAULT_MINCAP = 32`), `pipe_reserve(p, 4)` sets `min_cap` to 4 —
not to `max(4, DEFAULT_MINCAP) = 32` as the claim states — and shrinks the
capacity from 32 to 4, contradicting "changes capacity only by growing". -/
theorem c2_reserve_counterexample :
    pipe_new true 1 = some freshPipe1 ∧
    (pipe_reserve freshPipe1 4).min_cap = 4 ∧
    (4 : Nat) ≠ max 4 DEFAULT_MINCAP ∧
    (pipe_reserve freshPipe1 4).capacity = 4 ∧
    (pipe_reserve freshPipe1 4).capacity < freshPipe1.capacity := by
  decide

/-- C2 (amended): `pipe_reserve(p, count)` first replaces `count = 0` by
`DEFAULT_MINCAP`; then, when the (replaced) count exceeds `elem_count`, it
sets `min_cap` to that count and resizes the capacity to exactly that count
(which may grow or shrink the buffer), never leaving the capacity at or
below `elem_count` nor below the new `min_cap`; when the count does not
exceed `elem_count` the pipe is unchanged. -/
theorem c2_reserve_description (p : Pipe) (count0 : Nat) :
    (p.elem_count < (if count0 = 0 then DEFAULT_MINCAP else count0) →
      (pipe_reserve p count0).min_cap = (if count0 = 0 then DEFAULT_MINCAP else count0) ∧
      (pipe_reserve p count0).capacity = (if count0 = 0 then DEFAULT_MINCAP else count0) ∧
      p.elem_count < (pipe_reserve p count0).capacity ∧
      (pipe_reserve p count0).min_cap ≤ (pipe_reserve p count0).capacity) ∧
    ((if count0 = 0 then DEFAULT_MINCAP else count0) ≤ p.elem_count →
      pipe_reserve p count0 = p) ∧
    pipe_reserve p 0 = pipe_reserve p DEFAULT_MINCAP := by
  refine ⟨?_, ?_, ?_⟩
  · intro h
    unfold pipe_reserve resize_buffer
    rw [if_pos h, if_neg (by simp; omega)]
    simp
    omega
  · intro h
    unfold pipe_reserve
    rw [if_neg (by omega)]
  · unfold pipe_reserve
    simp [DEFAULT_MINCAP]

/-- C3 (spec-modelled): `pipe_pop_eager` behaves like `pipe_pop` except for
its wait-loop guard: its post-wait body is exactly that of `pipe_pop`, it
returns `min(count, elem_count)` elements, and its guard holds (so the call
keeps waiting) exactly while `elem_count == 0` and `producer_refcount > 0` —
dually, the wait ends as soon as at least one element is present or the
producer count is zero, so fewer than `count` elements may be returned even
while producers remain alive. -/
theorem c3_pop_eager_description (p : Pipe) (count : Nat) :
    pipe_pop_eager p count = pipe_pop p count ∧
    (pipe_pop_eager p count).2.2 = min count p.elem_count ∧
    (pop_eager_guard p = true ↔ p.elem_count = 0 ∧ 0 < p.producer_refcount) ∧
    (pop_eager_guard p = false ↔ 0 < p.elem_count ∨ p.producer_refcount = 0) := by
  refine ⟨rfl, ?_, ?_, ?_⟩
  · by_cases h : 0 < p.elem_count
    · simp [pipe_pop_eager, h, pop_without_locking, pop_elements]
    · have h0 : p.elem_count = 0 := by omega
      simp [pipe_pop_eager, h, h0]
  · simp [pop_eager_guard]
  · simp [pop_eager_guard]
    omega

/-- C7 counterexample: with the structure allocation succeeding,
`pipe_new(0)` does not fail: the release build elides the
`assert(elem_size != 0)` and returns a handle whose pipe has
`elem_size = 0` (and an empty buffer), not a null handle. -/
theorem c7_new_zero_size_counterexample :
    pipe_new true 0 ≠ none ∧
    pipe_new true 0 = some ⟨0, 0, 32, 32, [], 0, 0, 1, 1⟩ := by
  decide

/-- C7 (amended): `pipe_new(elem_size)` builds a pipe with `capacity =
min_cap = DEFAULT_MINCAP` (32 in release; the debug value is 2),
`elem_count = 0`, `begin = end = buffer` (offset 0), and both reference
counts 1; it returns a null handle exactly when the allocation of the pipe
structure fails.  `elem_size == 0` is guarded only by a debug assertion: in
the release build no null handle results from it. -/
theorem c7_new_description (es : Nat) :
    pipe_new false es = none ∧
    (∃ p : Pipe, pipe_new true es = some p ∧
      p.elem_size = es ∧
      p.capacity = DEFAULT_MINCAP ∧
      p.min_cap = DEFAULT_MINCAP ∧
      p.elem_count = 0 ∧
      p.begin = 0 ∧ p.end_ = 0 ∧ p.buffer.length = bufLen p ∧
      p.producer_refcount = 1 ∧ p.consumer_refcount = 1) ∧
    DEFAULT_MINCAP = 32 ∧ DEFAULT_MINCAP_DEBUG = 2 := by
  refine ⟨rfl, ⟨_, rfl, rfl, rfl, rfl, rfl, rfl, rfl, ?_, rfl, rfl⟩, rfl, rfl⟩
  simp [bufLen, DEFAULT_MINCAP]

/-- C8: the claim says the structural invariants hold after every public
operation; the code violates them.  Pushing exactly up to the capacity (32
one-byte elements into a fresh release-build pipe) triggers no resize, and
the `end` cursor wraps onto `begin`, leaving a full buffer
(`elem_count = 32`) that the nowrap size equation reads as empty:
`check_invariants` fails on the result (a debug build aborts on this
assertion). -/
theorem c8_full_push_breaks_invariants :
    pipe_new true 1 = some freshPipe1 ∧
    inv freshPipe1 ∧
    (pipe_push freshPipe1 (List.replicate 32 7) 32).1.elem_count = 32 ∧
    (pipe_push freshPipe1 (List.replicate 32 7) 32).1.begin =
      (pipe_push freshPipe1 (List.replicate 32 7) 32).1.end_ ∧
    check_invariants (pipe_push freshPipe1 (List.replicate 32 7) 32).1 = false := by
  decide

/-- C10: a push never shrinks the buffer: the capacity after any
`pipe_push` is at least the capacity before, and when the pushed elements
already fit (`elem_count + count <= capacity`) the capacity is unchanged;
the resize requested otherwise asks for `next_pow2(elem_count + count)`,
which is at least `elem_count + count` and hence exceeds the capacity. -/
theorem c10_push_never_shrinks (p : Pipe) (elems : List Nat) (count : Nat) :
    p.capacity ≤ (pipe_push p elems count).1.capacity ∧
    (p.elem_count + count ≤ p.capacity →
      (pipe_push p elems count).1.capacity = p.capacity) ∧
    (p.capacity < p.elem_count + count →
      p.elem_count + count ≤ next_pow2 (p.elem_count + count)) := by
  refine ⟨?_, ?_, fun _ => next_pow2_ge _⟩
  · show p.capacity ≤ (push_without_locking p elems count).capacity
    unfold push_without_locking
    rw [push_copy_step_capacity]
    split
    · rw [resize_buffer_capacity]
      split
      · exact Nat.le_refl _
      · have h1 := next_pow2_ge (p.elem_count + count)
        omega
    · exact Nat.le_refl _
  · intro h
    show (push_without_locking p elems count).capacity = p.capacity
    unfold push_without_locking
    rw [push_copy_step_capacity, if_neg (by omega)]

lemma resize_buffer_begin (p : Pipe) (ns : Nat) :
    (resize_buffer p ns).begin =
      if ns ≤ p.elem_count ∨ ns < p.min_cap then p.begin else 0 := by
  unfold resize_buffer
  split <;> rfl

lemma resize_buffer_end (p : Pipe) (ns : Nat) :
    (resize_buffer p ns).end_ =
      if ns ≤ p.elem_count ∨ ns < p.min_cap then p.end_ else (logical_bytes p).length := by
  unfold resize_buffer
  split <;> rfl

lemma resize_buffer_buffer (p : Pipe) (ns : Nat) :
    (resize_buffer p ns).buffer =
      if ns ≤ p.elem_count ∨ ns < p.min_cap then p.buffer
      else logical_bytes p ++
        List.replicate (ns * p.elem_size - (logical_bytes p).length) 0 := by
  unfold resize_buffer
  split <;> rfl

lemma logical_bytes_length (p : Pipe) (h : inv p) :
    (logical_bytes p).length = p.elem_count * p.elem_size := by
  obtain ⟨hes, hmc, hcc, hlen, hb, he, hbne, hwrap, hnow⟩ := (inv_iff p).mp h
  have hcomm : p.elem_count * p.elem_size = p.elem_size * p.elem_count :=
    Nat.mul_comm _ _
  unfold logical_bytes wraps_around
  by_cases hw : p.end_ < p.begin
  · have hsz := hwrap hw
    rw [if_pos (by simpa using hw)]
    rw [List.length_append, List.length_drop, List.length_take, hlen]
    have hmin : min p.end_ (bufLen p) = p.end_ := Nat.min_eq_left he
    rw [hmin]
    omega
  · have hsz := hnow (Nat.not_lt.mp hw)
    rw [if_neg (by simpa using hw)]
    rw [List.length_take, List.length_drop, hlen]
    have hmin : min (p.end_ - p.begin) (bufLen p - p.begin) = p.end_ - p.begin :=
      Nat.min_eq_left (by omega)
    rw [hmin]
    omega

lemma shrink_step_elem_count (p : Pipe) :
    (shrink_step p).elem_count = p.elem_count := by
  unfold shrink_step
  split
  · exact resize_buffer_elem_count _ _
  · rfl

lemma logical_bytes_congr (p q : Pipe) (h1 : q.buffer = p.buffer)
    (h2 : q.begin = p.begin) (h3 : q.end_ = p.end_) :
    logical_bytes q = logical_bytes p := by
  unfold logical_bytes wraps_around
  rw [h1, h2, h3]

/-- The removal phase of a pop: it removes `min(count, elem_count)`
elements, emits exactly the first `min(count, elem_count) * elem_size`
bytes of the logical FIFO content, advances `begin` by that many bytes
modulo the buffer length, and touches nothing else. -/
lemma pop_elements_spec (p : Pipe) (count : Nat) (h : inv p) :
    (pop_elements p count).2.2 = min count p.elem_count ∧
    (pop_elements p count).2.1 =
      (logical_bytes p).take (min count p.elem_count * p.elem_size) ∧
    (pop_elements p count).1.elem_count = p.elem_count - min count p.elem_count ∧
    (pop_elements p count).1.begin =
      (p.begin + min count p.elem_count * p.elem_size) % bufLen p ∧
    (pop_elements p count).1.capacity = p.capacity ∧
    (pop_elements p count).1.min_cap = p.min_cap ∧
    (pop_elements p count).1.elem_size = p.elem_size ∧
    (pop_elements p count).1.end_ = p.end_ ∧
    (pop_elements p count).1.buffer = p.buffer := by
  obtain ⟨hes, hmc, hcc, hlen, hb, he, hbne, hwrap, hnow⟩ := (inv_iff p).mp h
  have hbL : p.begin < bufLen p := Nat.lt_of_le_of_ne hb hbne
  have hnle : min count p.elem_count ≤ p.elem_count := Nat.min_le_right _ _
  have hBle : min count p.elem_count * p.elem_size ≤ p.elem_count * p.elem_size :=
    Nat.mul_le_mul_right _ hnle
  have hcomm : p.elem_count * p.elem_size = p.elem_size * p.elem_count :=
    Nat.mul_comm _ _
  refine ⟨rfl, ?_, rfl, ?_, rfl, rfl, rfl, rfl, rfl⟩
  · -- the bytes copied out are the first bytes of the logical content
    show (p.buffer.drop p.begin).take
        (min (min count p.elem_count * p.elem_size) (bufLen p - p.begin)) ++
      (if 0 < min count p.elem_count * p.elem_size -
            min (min count p.elem_count * p.elem_size) (bufLen p - p.begin)
        then p.buffer.take
          (min count p.elem_count * p.elem_size -
            min (min count p.elem_count * p.elem_size) (bufLen p - p.begin))
        else []) =
      (logical_bytes p).take (min count p.elem_count * p.elem_size)
    by_cases hfit : min count p.elem_count * p.elem_size ≤ bufLen p - p.begin
    · have hm1 : min (min count p.elem_count * p.elem_size) (bufLen p - p.begin)
          = min count p.elem_count * p.elem_size := Nat.min_eq_left hfit
      rw [hm1, if_neg (by omega), List.append_nil]
      unfold logical_bytes wraps_around
      by_cases hw : p.end_ < p.begin
      · rw [if_pos (by simpa using hw), List.take_append_eq_append_take]
        have hdl : (p.buffer.drop p.begin).length = bufLen p - p.begin := by
          rw [List.length_drop, hlen]
        rw [hdl]
        have hz : min count p.elem_count * p.elem_size - (bufLen p - p.begin) = 0 := by
          omega
        rw [hz, List.take_zero, List.append_nil]
      · have hsz := hnow (Nat.not_lt.mp hw)
        rw [if_neg (by simpa using hw), List.take_take]
        have hm2 : min (min count p.elem_count * p.elem_size) (p.end_ - p.begin)
            = min count p.elem_count * p.elem_size := Nat.min_eq_left (by omega)
        rw [hm2]
    · have hw : p.end_ < p.begin := by
        by_contra hnw
        have hsz := hnow (Nat.not_lt.mp hnw)
        omega
      have hsz := hwrap hw
      have hm1 : min (min count p.elem_count * p.elem_size) (bufLen p - p.begin)
          = bufLen p - p.begin := Nat.min_eq_right (by omega)
      rw [hm1, if_pos (by omega)]
      unfold logical_bytes wraps_around
      rw [if_pos (by simpa using hw), List.take_append_eq_append_take]
      have hdl : (p.buffer.drop p.begin).length = bufLen p - p.begin := by
        rw [List.length_drop, hlen]
      rw [hdl]
      have ht1 : (p.buffer.drop p.begin).take (bufLen p - p.begin)
          = p.buffer.drop p.begin := List.take_of_length_le (le_of_eq hdl)
      have ht2 : (p.buffer.drop p.begin).take (min count p.elem_count * p.elem_size)
          = p.buffer.drop p.begin := List.take_of_length_le (by rw [hdl]; omega)
      rw [ht1, ht2, List.take_take]
      have hb2 : min count p.elem_count * p.elem_size - (bufLen p - p.begin) ≤ p.end_ := by
        omega
      have hm2 : min (min count p.elem_count * p.elem_size - (bufLen p - p.begin)) p.end_
          = min count p.elem_count * p.elem_size - (bufLen p - p.begin) :=
        Nat.min_eq_left hb2
      rw [hm2]
  · -- begin advances by the popped bytes, modulo the buffer length
    show (if 0 < min count p.elem_count * p.elem_size -
            min (min count p.elem_count * p.elem_size) (bufLen p - p.begin)
        then wrap_if_at_end
          (wrap_if_at_end
            (p.begin + min (min count p.elem_count * p.elem_size) (bufLen p - p.begin))
            0 (bufLen p) +
          (min count p.elem_count * p.elem_size -
            min (min count p.elem_count * p.elem_size) (bufLen p - p.begin)))
          0 (bufLen p)
        else wrap_if_at_end
          (p.begin + min (min count p.elem_count * p.elem_size) (bufLen p - p.begin))
          0 (bufLen p)) =
      (p.begin + min count p.elem_count * p.elem_size) % bufLen p
    by_cases hfit : min count p.elem_count * p.elem_size ≤ bufLen p - p.begin
    · have hm1 : min (min count p.elem_count * p.elem_size) (bufLen p - p.begin)
          = min count p.elem_count * p.elem_size := Nat.min_eq_left hfit
      rw [hm1, if_neg (by omega)]
      unfold wrap_if_at_end
      by_cases heq : p.begin + min count p.elem_count * p.elem_size = bufLen p
      · rw [if_pos heq, heq, Nat.mod_self]
      · rw [if_neg heq, Nat.mod_eq_of_lt (by omega)]
    · have hw : p.end_ < p.begin := by
        by_contra hnw
        have hsz := hnow (Nat.not_lt.mp hnw)
        omega
      have hsz := hwrap hw
      have hm1 : min (min count p.elem_count * p.elem_size) (bufLen p - p.begin)
          = bufLen p - p.begin := Nat.min_eq_right (by omega)
      rw [hm1, if_pos (by omega)]
      unfold wrap_if_at_end
      have he1 : p.begin + (bufLen p - p.begin) = bufLen p := by omega
      rw [he1]
      have hi0 : (if bufLen p = bufLen p then 0 else bufLen p) = 0 := if_pos rfl
      rw [hi0, Nat.zero_add]
      have hb2 : min count p.elem_count * p.elem_size - (bufLen p - p.begin) ≤ p.end_ := by
        omega
      have hne : ¬(min count p.elem_count * p.elem_size - (bufLen p - p.begin)
          = bufLen p) := by omega
      rw [if_neg hne]
      have hsplit : p.begin + min count p.elem_count * p.elem_size
          = bufLen p + (min count p.elem_count * p.elem_size - (bufLen p - p.begin)) := by
        omega
      rw [hsplit, Nat.add_mod_left, Nat.mod_eq_of_lt (by omega)]

lemma inv_capacity_pos (p : Pipe) (h : inv p) : 0 < p.capacity := by
  obtain ⟨hes, hmc, hcc, hlen, hb, he, hbne, _, _⟩ := (inv_iff p).mp h
  have hbL : p.begin < bufLen p := Nat.lt_of_le_of_ne hb hbne
  by_contra h0
  have hc0 : p.capacity = 0 := by omega
  have : bufLen p = 0 := by unfold bufLen; rw [hc0]; exact Nat.mul_zero _
  omega

lemma shrink_step_capacity (q : Pipe) :
    (shrink_step q).capacity =
      if q.elem_count ≤ q.capacity / 4 ∧ q.min_cap ≤ q.capacity / 2 ∧
          q.elem_count < q.capacity / 2
      then q.capacity / 2 else q.capacity := by
  unfold shrink_step
  by_cases h1 : q.elem_count ≤ q.capacity / 4
  · rw [if_pos h1, resize_buffer_capacity]
    by_cases h2 : q.capacity / 2 ≤ q.elem_count ∨ q.capacity / 2 < q.min_cap
    · rw [if_pos h2, if_neg (by omega)]
    · rw [if_neg h2, if_pos (by omega)]
  · rw [if_neg h1, if_neg (by omega)]

lemma shrink_step_begin (q : Pipe)
    (h : q.elem_count ≤ q.capacity / 4 ∧ q.min_cap ≤ q.capacity / 2 ∧
      q.elem_count < q.capacity / 2) :
    (shrink_step q).begin = 0 := by
  unfold shrink_step
  rw [if_pos h.1, resize_buffer_begin, if_neg (by omega)]

lemma logical_bytes_resize (q : Pipe) (ns : Nat)
    (hgo : ¬(ns ≤ q.elem_count ∨ ns < q.min_cap)) :
    logical_bytes (resize_buffer q ns) = logical_bytes q := by
  unfold resize_buffer
  rw [if_neg hgo]
  show (if wraps_around _ then _ else _) = _
  unfold wraps_around
  rw [if_neg (by simp)]
  show ((logical_bytes q ++ _).drop 0).take ((logical_bytes q).length - 0) = _
  rw [List.drop_zero, Nat.sub_zero]
  exact List.take_left _ _

/-- C4: `pipe_pop`'s body past the wait loop (whose exit means
`¬(elem_count < count ∧ producer_refcount > 0)`) removes and returns
`n = min(count, elem_count)` elements; the bytes written to the target are
the first `n * elem_size` bytes of the logical FIFO content (the copy out
of `begin` wrapping at `bufend`); `begin` advances by `n * elem_size`
modulo the buffer length; `elem_count` drops by `n`.  A pop with
`count = 0` has a false wait guard (no blocking) and returns 0, and a pop
with no producer left has a false wait guard as well. -/
theorem c4_pop_description (p : Pipe) (count : Nat) (hinv : inv p)
    (_hwait : ¬(p.elem_count < count ∧ 0 < p.producer_refcount)) :
    (pipe_pop p count).2.2 = min count p.elem_count ∧
    (pipe_pop p count).2.1 =
      (logical_bytes p).take (min count p.elem_count * p.elem_size) ∧
    (pipe_pop p count).1.elem_count = p.elem_count - min count p.elem_count ∧
    (pop_elements p count).1.begin =
      (p.begin + min count p.elem_count * p.elem_size) % bufLen p ∧
    pop_guard p 0 = false ∧
    (pipe_pop p 0).2.2 = 0 ∧
    (p.producer_refcount = 0 → pop_guard p count = false) := by
  obtain ⟨s1, s2, s3, s4, _, _, _, _, _⟩ := pop_elements_spec p count hinv
  refine ⟨?_, ?_, ?_, s4, ?_, ?_, ?_⟩
  · unfold pipe_pop
    by_cases hpos : 0 < p.elem_count
    · rw [if_pos hpos]
      exact s1
    · rw [if_neg hpos]
      have h0 : p.elem_count = 0 := by omega
      simp [h0]
  · unfold pipe_pop
    by_cases hpos : 0 < p.elem_count
    · rw [if_pos hpos]
      exact s2
    · rw [if_neg hpos]
      have h0 : p.elem_count = 0 := by omega
      simp [h0]
  · unfold pipe_pop
    by_cases hpos : 0 < p.elem_count
    · rw [if_pos hpos]
      show (shrink_step (pop_elements p count).1).elem_count = _
      rw [shrink_step_elem_count]
      exact s3
    · rw [if_neg hpos]
      have h0 : p.elem_count = 0 := by omega
      simp [h0]
  · simp [pop_guard]
  · unfold pipe_pop
    by_cases hpos : 0 < p.elem_count
    · rw [if_pos hpos]
      show (pop_elements p 0).2.2 = 0
      show min 0 p.elem_count = 0
      exact Nat.zero_min _
    · rw [if_neg hpos]
  · intro hz
    simp [pop_guard, hz]

/-- A well-formed pipe holding the bytes 5 and 7, used to instantiate the
pop theorems. -/
def popW : Pipe := ⟨1, 2, 32, 32, 5 :: 7 :: List.replicate 30 0, 0, 2, 1, 1⟩

theorem c4_pop_description_witness :
    inv popW ∧
    ¬(popW.elem_count < 1 ∧ 0 < popW.producer_refcount) ∧
    ((pipe_pop popW 1).2.2 = min 1 popW.elem_count ∧
     (pipe_pop popW 1).2.1 =
       (logical_bytes popW).take (min 1 popW.elem_count * popW.elem_size) ∧
     (pipe_pop popW 1).1.elem_count = popW.elem_count - min 1 popW.elem_count ∧
     (pop_elements popW 1).1.begin =
       (popW.begin + min 1 popW.elem_count * popW.elem_size) % bufLen popW ∧
     pop_guard popW 0 = false ∧
     (pipe_pop popW 0).2.2 = 0 ∧
     (popW.producer_refcount = 0 → pop_guard popW 1 = false)) :=
  ⟨by decide, by decide, c4_pop_description popW 1 (by decide) (by decide)⟩

/-- C6: after the removal phase of a pop, the capacity is halved exactly
when the remaining `elem_count` is at most a quarter of the capacity, half
the capacity is still at least `min_cap`, and half the capacity still
exceeds the remaining `elem_count`; otherwise it is unchanged.  Halving is
a strict decrease (`capacity / 2 < capacity` on a well-formed pipe), and a
shrink flattens the wrap, resetting `begin` to the buffer start. -/
theorem c6_shrink_policy (p : Pipe) (count : Nat) (hinv : inv p) :
    ((pop_without_locking p count).1.capacity =
      if p.elem_count - min count p.elem_count ≤ p.capacity / 4 ∧
          p.min_cap ≤ p.capacity / 2 ∧
          p.elem_count - min count p.elem_count < p.capacity / 2
      then p.capacity / 2 else p.capacity) ∧
    p.capacity / 2 < p.capacity ∧
    (p.elem_count - min count p.elem_count ≤ p.capacity / 4 ∧
      p.min_cap ≤ p.capacity / 2 ∧
      p.elem_count - min count p.elem_count < p.capacity / 2 →
      (pop_without_locking p count).1.begin = 0) := by
  have hcap := inv_capacity_pos p hinv
  refine ⟨?_, Nat.div_lt_self hcap (by omega), ?_⟩
  · have hq := shrink_step_capacity (pop_elements p count).1
    have e1 : (pop_elements p count).1.elem_count =
        p.elem_count - min count p.elem_count := rfl
    have e2 : (pop_elements p count).1.capacity = p.capacity := rfl
    have e3 : (pop_elements p count).1.min_cap = p.min_cap := rfl
    rw [e1, e2, e3] at hq
    exact hq
  · intro hcond
    show (shrink_step (pop_elements p count).1).begin = 0
    exact shrink_step_begin _ hcond

theorem c6_shrink_policy_witness :
    inv popW ∧
    ((pop_without_locking popW 2).1.capacity =
      if popW.elem_count - min 2 popW.elem_count ≤ popW.capacity / 4 ∧
          popW.min_cap ≤ popW.capacity / 2 ∧
          popW.elem_count - min 2 popW.elem_count < popW.capacity / 2
      then popW.capacity / 2 else popW.capacity) ∧
    popW.capacity / 2 < popW.capacity ∧
    (popW.elem_count - min 2 popW.elem_count ≤ popW.capacity / 4 ∧
      popW.min_cap ≤ popW.capacity / 2 ∧
      popW.elem_count - min 2 popW.elem_count < popW.capacity / 2 →
      (pop_without_locking popW 2).1.begin = 0) ∧
    (pop_without_locking popW 2).1.capacity = 32 :=
  ⟨by decide, (c6_shrink_policy popW 2 (by decide)).1,
   (c6_shrink_policy popW 2 (by decide)).2.1,
   (c6_shrink_policy popW 2 (by decide)).2.2, by decide⟩

/-- A well-formed pipe whose occupancy (one element of eight) is low enough
that the shrink policy fires, with `min_cap = 4` allowing one halving. -/
def lowW : Pipe := ⟨1, 1, 8, 4, 9 :: List.replicate 7 0, 0, 1, 1, 1⟩

/-- C9: on a pipe whose occupancy is at or below a quarter and whose halved
capacity still covers both `min_cap` and the stored elements, `pipe_pop`
with `count = 0` returns 0, copies nothing out, leaves `elem_count` and the
logical contents intact — and nevertheless halves the capacity, because the
shrink check runs on every pop that finds the pipe non-empty. -/
theorem c9_pop_zero_count_still_shrinks (p : Pipe) (hinv : inv p)
    (h1 : 0 < p.elem_count) (h2 : p.elem_count ≤ p.capacity / 4)
    (h3 : p.min_cap ≤ p.capacity / 2) (h4 : p.elem_count < p.capacity / 2) :
    (pipe_pop p 0).2.2 = 0 ∧
    (pipe_pop p 0).2.1 = [] ∧
    (pipe_pop p 0).1.elem_count = p.elem_count ∧
    logical_bytes (pipe_pop p 0).1 = logical_bytes p ∧
    (pipe_pop p 0).1.capacity = p.capacity / 2 ∧
    (pipe_pop p 0).1.capacity < p.capacity := by
  obtain ⟨hes, hmc, hcc, hlen, hb, he, hbne, hwrap, hnow⟩ := (inv_iff p).mp hinv
  have hbL : p.begin < bufLen p := Nat.lt_of_le_of_ne hb hbne
  have hcap := inv_capacity_pos p hinv
  obtain ⟨s1, s2, s3, s4, s5, s6, s7, s8, s9⟩ := pop_elements_spec p 0 hinv
  have hm0 : min 0 p.elem_count * p.elem_size = 0 := by
    rw [Nat.zero_min, Nat.zero_mul]
  have hq_ec : (pop_elements p 0).1.elem_count = p.elem_count := by
    rw [s3, Nat.zero_min, Nat.sub_zero]
  have hq_b : (pop_elements p 0).1.begin = p.begin := by
    rw [s4, hm0, Nat.add_zero, Nat.mod_eq_of_lt hbL]
  have hlb : logical_bytes (pop_elements p 0).1 = logical_bytes p :=
    logical_bytes_congr p _ s9 hq_b s8
  have hgo : ¬((pop_elements p 0).1.capacity / 2 ≤ (pop_elements p 0).1.elem_count ∨
      (pop_elements p 0).1.capacity / 2 < (pop_elements p 0).1.min_cap) := by
    rw [hq_ec, s5, s6]
    omega
  have hss : shrink_step (pop_elements p 0).1 =
      resize_buffer (pop_elements p 0).1 ((pop_elements p 0).1.capacity / 2) := by
    unfold shrink_step
    rw [if_pos (by rw [hq_ec, s5]; exact h2)]
  have hpp : pipe_pop p 0 = pop_without_locking p 0 := by
    unfold pipe_pop
    rw [if_pos h1]
  refine ⟨?_, ?_, ?_, ?_, ?_, ?_⟩
  · rw [hpp]
    show (pop_elements p 0).2.2 = 0
    rw [s1, Nat.zero_min]
  · rw [hpp]
    show (pop_elements p 0).2.1 = []
    rw [s2, hm0, List.take_zero]
  · rw [hpp]
    show (shrink_step (pop_elements p 0).1).elem_count = p.elem_count
    rw [shrink_step_elem_count]
    exact hq_ec
  · rw [hpp]
    show logical_bytes (shrink_step (pop_elements p 0).1) = logical_bytes p
    rw [hss, logical_bytes_resize _ _ hgo]
    exact hlb
  · rw [hpp]
    show (shrink_step (pop_elements p 0).1).capacity = p.capacity / 2
    rw [hss, resize_buffer_capacity, if_neg hgo, s5]
  · rw [hpp]
    show (shrink_step (pop_elements p 0).1).capacity < p.capacity
    rw [hss, resize_buffer_capacity, if_neg hgo, s5]
    exact Nat.div_lt_self hcap (by omega)

theorem c9_pop_zero_count_still_shrinks_witness :
    inv lowW ∧ 0 < lowW.elem_count ∧ lowW.elem_count ≤ lowW.capacity / 4 ∧
    lowW.min_cap ≤ lowW.capacity / 2 ∧ lowW.elem_count < lowW.capacity / 2 ∧
    ((pipe_pop lowW 0).2.2 = 0 ∧
     (pipe_pop lowW 0).2.1 = [] ∧
     (pipe_pop lowW 0).1.elem_count = lowW.elem_count ∧
     logical_bytes (pipe_pop lowW 0).1 = logical_bytes lowW ∧
     (pipe_pop lowW 0).1.capacity = lowW.capacity / 2 ∧
     (pipe_pop lowW 0).1.capacity < lowW.capacity) ∧
    (pipe_pop lowW 0).1.capacity = 4 :=
  ⟨by decide, by decide, by decide, by decide, by decide,
   c9_pop_zero_count_still_shrinks lowW (by decide) (by decide) (by decide)
     (by decide) (by decide), by decide⟩

lemma next_pow2_loop_spec (fuel : Nat) :
    ∀ j n : Nat, (∀ t, t < j → 2 ^ t < n) →
      (∃ k, j ≤ k ∧ k < j + fuel ∧ next_pow2_loop fuel (2 ^ j) n = 2 ^ k ∧
        n ≤ 2 ^ k ∧ ∀ t, t < k → 2 ^ t < n) ∨
      ((∀ t, t < j + fuel → 2 ^ t < n) ∧ next_pow2_loop fuel (2 ^ j) n = n) := by
  induction fuel with
  | zero =>
      intro j n hj
      right
      exact ⟨by simpa using hj, rfl⟩
  | succ f ih =>
      intro j n hj
      rcases le_or_lt n (2 ^ j) with hle | hgt
      · left
        refine ⟨j, Nat.le_refl j, by omega, ?_, hle, hj⟩
        simp [next_pow2_loop, hle]
      · have hj' : ∀ t, t < j + 1 → 2 ^ t < n := by
          intro t ht
          rcases Nat.lt_or_ge t j with h | h
          · exact hj t h
          · have ht' : t = j := by omega
            rw [ht']
            exact hgt
        have hred : next_pow2_loop (f + 1) (2 ^ j) n = next_pow2_loop f (2 ^ (j + 1)) n := by
          have h2 : 2 ^ j * 2 = 2 ^ (j + 1) := (Nat.pow_succ 2 j).symm
          simp [next_pow2_loop, Nat.not_le.mpr hgt, h2]
        rcases ih (j + 1) n hj' with ⟨k, hk1, hk2, hk3, hk4, hk5⟩ | ⟨h1, h2⟩
        · left
          exact ⟨k, by omega, by omega, by rw [hred]; exact hk3, hk4, hk5⟩
        · right
          refine ⟨?_, by rw [hred]; exact h2⟩
          intro t ht
          exact h1 t (by omega)

/-- `next_pow2 n` is the least power of two that is at least `n`, except
when no power of two representable in a 64-bit `size_t` (at most `2^63`)
is: then it returns `n` itself. -/
lemma next_pow2_spec (n : Nat) :
    n ≤ next_pow2 n ∧
    ((∃ k, k ≤ 63 ∧ next_pow2 n = 2 ^ k ∧ n ≤ 2 ^ k ∧ ∀ t, t < k → 2 ^ t < n) ∨
     (2 ^ 63 < n ∧ next_pow2 n = n)) := by
  refine ⟨next_pow2_ge n, ?_⟩
  have h := next_pow2_loop_spec 64 0 n (by intro t ht; omega)
  have e0 : (2 : Nat) ^ 0 = 1 := rfl
  rw [e0] at h
  rcases h with ⟨k, _, hk2, hk3, hk4, hk5⟩ | ⟨h1, h2⟩
  · left
    exact ⟨k, by omega, hk3, hk4, hk5⟩
  · right
    exact ⟨h1 63 (by omega), h2⟩

/-- C5: when a push does not fit (`elem_count + count > capacity`), the
buffer is resized — before any element is copied in — to
`next_pow2(elem_count + count)`: the capacity after the push equals that
value, and the intermediate resized state has the logical contents
flattened contiguously at offset 0 with `begin` at the buffer start and
`end` at `elem_count * elem_size`.  `next_pow2(n)` is the smallest power of
two at least `n`, saturating to `n` itself when no representable power of
two is at least `n`. -/
theorem c5_push_growth (p : Pipe) (elems : List Nat) (count : Nat)
    (hinv : inv p) (hgrow : p.capacity < p.elem_count + count) :
    (pipe_push p elems count).1.capacity = next_pow2 (p.elem_count + count) ∧
    push_without_locking p elems count =
      push_copy_step (resize_buffer p (next_pow2 (p.elem_count + count))) elems count ∧
    (resize_buffer p (next_pow2 (p.elem_count + count))).capacity =
      next_pow2 (p.elem_count + count) ∧
    (resize_buffer p (next_pow2 (p.elem_count + count))).begin = 0 ∧
    (resize_buffer p (next_pow2 (p.elem_count + count))).end_ =
      p.elem_count * p.elem_size ∧
    (resize_buffer p (next_pow2 (p.elem_count + count))).buffer.take
      (p.elem_count * p.elem_size) = logical_bytes p ∧
    (∀ n : Nat, n ≤ next_pow2 n ∧
      ((∃ k, k ≤ 63 ∧ next_pow2 n = 2 ^ k ∧ n ≤ 2 ^ k ∧ ∀ t, t < k → 2 ^ t < n) ∨
       (2 ^ 63 < n ∧ next_pow2 n = n))) := by
  obtain ⟨hes, hmc, hcc, hlen, hb, he, hbne, hwrap, hnow⟩ := (inv_iff p).mp hinv
  have hge := next_pow2_ge (p.elem_count + count)
  have hng : ¬(next_pow2 (p.elem_count + count) ≤ p.elem_count ∨
      next_pow2 (p.elem_count + count) < p.min_cap) := by omega
  refine ⟨?_, ?_, ?_, ?_, ?_, ?_, fun n => next_pow2_spec n⟩
  · show (push_without_locking p elems count).capacity = _
    unfold push_without_locking
    rw [if_pos hgrow, push_copy_step_capacity, resize_buffer_capacity, if_neg hng]
  · unfold push_without_locking
    rw [if_pos hgrow]
  · rw [resize_buffer_capacity, if_neg hng]
  · rw [resize_buffer_begin, if_neg hng]
  · rw [resize_buffer_end, if_neg hng]
    exact logical_bytes_length p hinv
  · rw [resize_buffer_buffer, if_neg hng, ← logical_bytes_length p hinv]
    exact List.take_left _ _

theorem c5_push_growth_witness :
    inv freshPipe1 ∧ freshPipe1.capacity < freshPipe1.elem_count + 33 ∧
    (pipe_push freshPipe1 (List.replicate 33 1) 33).1.capacity =
      next_pow2 (freshPipe1.elem_count + 33) ∧
    next_pow2 (freshPipe1.elem_count + 33) = 64 :=
  ⟨by decide, by decide,
   (c5_push_growth freshPipe1 (List.replicate 33 1) 33 (by decide) (by decide)).1,
   by decide⟩

example :
    (pipe_pop (pipe_push freshPipe1 [10, 11, 12, 13, 14] 5).1 5).2.1
      = [10, 11, 12, 13, 14] := by decide

example :
    (pipe_pop (pipe_push
        (pipe_pop (pipe_push freshPipe1 (List.range 30) 30).1 28).1
        [90, 91, 92, 93, 94, 95, 96, 97, 98, 99] 10).1 12).2.1
      = [28, 29, 90, 91, 92, 93, 94, 95, 96, 97, 98, 99] := by decide
